import Mathlib

/-!
Shallow embedding of the lazyman TUI core (Go) for specification checking.

Strings are modelled as `List Char`; Go `strings.ToLower`, `strings.Contains`,
`strings.Split(s, "\n")`, `strings.TrimSpace` and `strings.Join` are modelled
by the corresponding functions below.  Go `int` values that can go negative
(the list cursor, the current-match index) are modelled as `Int`; Go slice
indexing (which panics when out of range) is modelled totally via `List.getD`.
External collaborators (the bubbles viewport/textinput widgets, the bleve
index, the OS man-page enumeration) are outside the embedding: only the
values the state machine reads from them (input strings, fetch outcomes)
appear, as explicit parameters.
-/

namespace Lazyman

/-- Strings as character lists. -/
abbrev Str := List Char

/-- Convert a Lean string literal to the model representation. -/
def str (s : String) : Str := s.toList

/-- Model of Go `strings.ToLower` (character-wise lowering). -/
def toLowerStr (s : Str) : Str := s.map Char.toLower

/-- Model of Go `unicode.IsSpace` restricted to ASCII whitespace. -/
def isSpaceGo (c : Char) : Bool :=
  c = ' ' ∨ c = '\t' ∨ c = '\n' ∨ c = '\r'

/-- Model of Go `strings.TrimSpace`. -/
def trimSpace (s : Str) : Str :=
  ((s.dropWhile isSpaceGo).reverse.dropWhile isSpaceGo).reverse

/-- Model of Go `strings.Split(s, "\n")`. -/
def splitLines : Str → List Str
  | [] => [[]]
  | c :: rest =>
    let r := splitLines rest
    if c = '\n' then [] :: r
    else
      match r with
      | h :: t => (c :: h) :: t
      | [] => [[c]]

/-- `ManPage` (manpage.go): a manual page entry. -/
structure ManPage where
  Name : Str
  Section : Str
  Description : Str
  Path : Str
deriving DecidableEq, Inhabited

/-- `SectionFilter` (model.go): a manual-section filter. -/
structure SectionFilter where
  Section : Str
  Name : Str
  Enabled : Bool
deriving DecidableEq, Inhabited

/-- `ManPageDocument` (search.go): the unit handed to the search engine. -/
structure ManPageDocument where
  Name : Str
  Section : Str
  Description : Str
  Content : Str
  Path : Str
deriving DecidableEq, Inhabited

/-! ### levenshteinDistance (model.go lines 463-505)

The Go code fills an (m+1)×(n+1) matrix row by row with
`matrix[i][0] = i`, `matrix[0][j] = j` and
`matrix[i][j] = min(matrix[i-1][j]+1, matrix[i][j-1]+1, matrix[i-1][j-1]+cost)`.
`Mrow` computes row `i+1` from row `i`, `Mfun` iterates rows, so that
`M a b i j` is exactly `matrix[i][j]` over the lowercased inputs. -/

/-- Row `i+1` of the edit-distance matrix, given row `i` as `rowPrev`. -/
def Mrow (a b : Str) (rowPrev : Nat → Nat) (i : Nat) : Nat → Nat
  | 0 => i + 1
  | j + 1 =>
    let cost := if a.getD i ' ' = b.getD j ' ' then 0 else 1
    min (rowPrev (j + 1) + 1) (min (Mrow a b rowPrev i j + 1) (rowPrev j + cost))

/-- Rows of the edit-distance matrix. -/
def Mfun (a b : Str) : Nat → (Nat → Nat)
  | 0 => fun j => j
  | i + 1 => Mrow a b (Mfun a b i) i

/-- Entry `matrix[i][j]` of the Go dynamic-programming matrix. -/
def M (a b : Str) (i j : Nat) : Nat := Mfun a b i j

/-- `levenshteinDistance` (model.go): case-insensitive edit distance,
with the Go early returns for empty lowered inputs. -/
def levenshteinDistance (s1 s2 : Str) : Nat :=
  let s1Lower := toLowerStr s1
  let s2Lower := toLowerStr s2
  if s1Lower.length = 0 then s2Lower.length
  else if s2Lower.length = 0 then s1Lower.length
  else M s1Lower s2Lower s1Lower.length s2Lower.length

/-! ### Navigation State Machine data (model.go lines 14-53, 84-195) -/

/-- View modes (model.go lines 14-21). -/
inductive viewMode where
  | listView
  | detailView
  | searchView
  | detailSearchView
deriving DecidableEq, Inhabited

/-- `Model` (model.go lines 31-53).  The bubbles `viewport`/`previewPort`
widgets are external rendering state and carry no machine-visible data, so
they are omitted; of the two textinput widgets only their string values are
kept (`Update` reads them on commit).  `err` is `some message` for a set
Go `error` and `none` for `nil`. -/
structure Model where
  mode : viewMode
  manPages : List ManPage
  filteredPages : List ManPage
  cursor : Int
  searchInput : Str
  detailSearchInput : Str
  currentContent : Str
  previewContent : Str
  searchQuery : Str
  searchMatches : List Nat
  currentMatch : Int
  sectionFilters : List SectionFilter
  initialQuery : Str
  noMatchSuggestions : List ManPage
  width : Int
  height : Int
  err : Option Str
  loading : Bool
  loadingPreview : Bool
deriving DecidableEq, Inhabited

/-- The section filters built by `InitialModel` (model.go lines 100-110). -/
def defaultSectionFilters : List SectionFilter :=
  [⟨str "1", str "General Commands", true⟩,
   ⟨str "2", str "System Calls", true⟩,
   ⟨str "3", str "Library Functions", true⟩,
   ⟨str "4", str "Kernel Interfaces", true⟩,
   ⟨str "5", str "File Formats", true⟩,
   ⟨str "6", str "Games", true⟩,
   ⟨str "7", str "Miscellaneous", true⟩,
   ⟨str "8", str "System Manager's", true⟩,
   ⟨str "9", str "Kernel Developer's", true⟩]

/-- `InitialModel` (model.go lines 84-125). -/
def InitialModel (initialQuery : Str) : Model :=
  { mode := .listView
    manPages := []
    filteredPages := []
    cursor := 0
    searchInput := []
    detailSearchInput := []
    currentContent := []
    previewContent := []
    searchQuery := []
    searchMatches := []
    currentMatch := 0
    sectionFilters := defaultSectionFilters
    initialQuery := initialQuery
    noMatchSuggestions := []
    width := 0
    height := 0
    err := none
    loading := true
    loadingPreview := false }

/-- Messages delivered to `Update` (model.go lines 142-156 and bubbletea
key/window messages).  Key presses carry the key's string form. -/
inductive Msg where
  | manPagesLoaded (pages : List ManPage)
  | manContentLoaded (content : Str)
  | previewLoaded (content : Str)
  | errMsg (e : Str)
  | key (k : String)
  | windowSize (w h : Int)
deriving DecidableEq

/-- Pending operations issued by `Update` (the `tea.Cmd` values it returns,
model.go lines 159-195 plus `tea.Quit`/`textinput.Blink`). -/
inductive Cmd where
  | quit
  | blink
  | loadManPagesCmd
  | searchManPagesCmd (query : Str)
  | loadManContentCmd (name₁ section₁ : Str)
  | loadPreviewCmd (name₁ section₁ : Str)
deriving DecidableEq

/-- `loadPreview` (model.go lines 187-195): the preview fetch outcome is
always wrapped in a `previewLoadedMsg`; a failure becomes the text
`Error loading preview: <cause>` rather than an `errMsg`. -/
def loadPreview (result : Except Str Str) : Msg :=
  match result with
  | .error e => .previewLoaded (str "Error loading preview: " ++ e)
  | .ok content => .previewLoaded content

/-! ### applyFilters (model.go lines 448-460) -/

/-- The inner loop of `applyFilters`: scan the filter list and report whether
some filter matches the page's section and is enabled (the Go loop appends
and breaks at the first such filter). -/
def filterHit (page : ManPage) : List SectionFilter → Bool
  | [] => false
  | f :: rest =>
    if f.Section = page.Section ∧ f.Enabled = true then true
    else filterHit page rest

/-- `Model.applyFilters` (model.go lines 448-460). -/
def Model.applyFilters (m : Model) : List ManPage → List ManPage
  | [] => []
  | page :: rest =>
    if filterHit page m.sectionFilters then page :: m.applyFilters rest
    else m.applyFilters rest

/-! ### findFuzzySuggestions (model.go lines 508-554) -/

/-- `scoredPage` (local type inside `findFuzzySuggestions`). -/
structure scoredPage where
  page : ManPage
  score : Int
deriving DecidableEq, Inhabited

/-- The scoring loop of `findFuzzySuggestions` (model.go lines 517-532):
per page, levenshtein distance of query and name, a −5 bonus when the
lowered query is a substring of the lowered name, kept when ≤ 5. -/
def scorePages (query : Str) : List ManPage → List scoredPage
  | [] => []
  | page :: rest =>
    let distance : Int := levenshteinDistance query page.Name
    let distance :=
      if toLowerStr query <:+: toLowerStr page.Name then distance - 5
      else distance
    if distance ≤ 5 then ⟨page, distance⟩ :: scorePages query rest
    else scorePages query rest

/-- One pass of the inner `j` loop of the exchange sort (model.go lines
536-540) with `x` the value currently at position `i`: each element smaller
than the current value is swapped with it.  Returns the final value at
position `i` and the final suffix. -/
def innerPass (x : scoredPage) : List scoredPage → scoredPage × List scoredPage
  | [] => (x, [])
  | y :: rest =>
    if y.score < x.score then
      let r := innerPass y rest
      (r.1, x :: r.2)
    else
      let r := innerPass x rest
      (r.1, y :: r.2)

/-- The outer `i` loop of the exchange sort (model.go lines 535-541).
`fuel` is the number of remaining positions; `sortScored` supplies the
list's length, which makes the recursion structural. -/
def sortGo : Nat → List scoredPage → List scoredPage
  | _, [] => []
  | 0, l => l
  | fuel + 1, x :: rest =>
    let r := innerPass x rest
    r.1 :: sortGo fuel r.2

/-- The in-place sort of `findFuzzySuggestions` (model.go lines 535-541). -/
def sortScored (l : List scoredPage) : List scoredPage := sortGo l.length l

/-- `Model.findFuzzySuggestions` (model.go lines 508-554). -/
def Model.findFuzzySuggestions (_m : Model) (query : Str)
    (allPages : List ManPage) : List ManPage :=
  let scored := scorePages query allPages
  let sorted := sortScored scored
  let mx := if sorted.length < 10 then sorted.length else 10
  (sorted.take mx).map (fun s => s.page)

/-- The adjusted distance of the specification: case-insensitive edit
distance between query and name, minus 5 when the lowered query is a
substring of the lowered name. -/
def adjustedDistance (query : Str) (page : ManPage) : Int :=
  if toLowerStr query <:+: toLowerStr page.Name then
    (levenshteinDistance query page.Name : Int) - 5
  else (levenshteinDistance query page.Name : Int)

/-! ### findMatches (model.go lines 557-573) -/

/-- The scan loop of `findMatches`: collect (0-based, ascending) indices of
lines whose lowering contains `searchLower`, starting at index `i`. -/
def matchLoop (searchLower : Str) : List Str → Nat → List Nat
  | [], _ => []
  | line :: rest, i =>
    if searchLower <:+: toLowerStr line then i :: matchLoop searchLower rest (i + 1)
    else matchLoop searchLower rest (i + 1)

/-- `Model.findMatches` (model.go lines 557-573). -/
def Model.findMatches (m : Model) (query : Str) : List Nat :=
  if query = [] ∨ m.currentContent = [] then []
  else
    let lines := splitLines m.currentContent
    let searchLower := toLowerStr query
    matchLoop searchLower lines 0

/-! ### Update (model.go lines 198-445) -/

/-- Model of the external bubbles textinput widget's default key handling:
a single-character key appends to the value, other keys leave it unchanged.
Only the committed value is ever read by `Update`, so the claims do not
depend on this model. -/
def textinputUpdate (v : Str) (k : String) : Str :=
  if k.length = 1 then v ++ k.toList else v

/-- The filter-toggle loop (model.go lines 325-330): flip `Enabled` of the
first filter whose section code equals `section₁`. -/
def toggleFilter (section₁ : Str) : List SectionFilter → List SectionFilter
  | [] => []
  | f :: rest =>
    if f.Section = section₁ then { f with Enabled := !f.Enabled } :: rest
    else f :: toggleFilter section₁ rest

/-- The candidate list the list view navigates (model.go lines 272-276,
285-288, 304-307): the fuzzy suggestions when the filtered view is empty
and suggestions exist, else the filtered view. -/
def activePages (m : Model) : List ManPage :=
  if m.filteredPages.length = 0 ∧ m.noMatchSuggestions.length > 0 then
    m.noMatchSuggestions
  else m.filteredPages

/-- The `manPagesLoadedMsg` handler (model.go lines 214-244). -/
def updateManPagesLoaded (m : Model) (pages : List ManPage) : Model × List Cmd :=
  let m1 := { m with manPages := pages
                     filteredPages := m.applyFilters pages
                     loading := false
                     cursor := 0 }
  if m1.initialQuery ≠ [] then
    if m1.filteredPages.length = 0 then
      -- No matches: compute fuzzy suggestions, prefetch preview of the top one.
      let m2 := { m1 with noMatchSuggestions :=
                    m1.findFuzzySuggestions m1.initialQuery m1.manPages }
      let cmds :=
        match m2.noMatchSuggestions with
        | page :: _ => [Cmd.loadPreviewCmd page.Name page.Section]
        | [] => []
      -- the common preview block (lines 241-244) is skipped: filtered view empty
      ({ m2 with initialQuery := [] }, cmds)
    else if m1.filteredPages.length = 1 then
      -- Single match: auto-open (early return, line 234).
      match m1.filteredPages with
      | page :: _ =>
        ({ m1 with initialQuery := [] },
          [Cmd.loadManContentCmd page.Name page.Section])
      | [] => (m1, [])
    else
      let m2 := { m1 with initialQuery := [] }
      match m2.filteredPages with
      | page :: _ => (m2, [Cmd.loadPreviewCmd page.Name page.Section])
      | [] => (m2, [])
  else
    match m1.filteredPages with
    | page :: _ => (m1, [Cmd.loadPreviewCmd page.Name page.Section])
    | [] => (m1, [])

/-- List-view key handling (model.go lines 264-345). -/
def updateKeyList (m : Model) (k : String) : Model × List Cmd :=
  if k = "ctrl+c" ∨ k = "q" then (m, [Cmd.quit])
  else if k = "up" ∨ k = "k" then
    if m.cursor > 0 then
      let m1 := { m with cursor := m.cursor - 1 }
      let pages := activePages m1
      if pages.length > 0 then
        let page := pages.getD m1.cursor.toNat default
        ({ m1 with loadingPreview := true },
          [Cmd.loadPreviewCmd page.Name page.Section])
      else (m1, [])
    else (m, [])
  else if k = "down" ∨ k = "j" then
    let maxLen := (activePages m).length
    if m.cursor < (maxLen : Int) - 1 then
      let m1 := { m with cursor := m.cursor + 1 }
      let pages := activePages m1
      if pages.length > 0 then
        let page := pages.getD m1.cursor.toNat default
        ({ m1 with loadingPreview := true },
          [Cmd.loadPreviewCmd page.Name page.Section])
      else (m1, [])
    else (m, [])
  else if k = "enter" then
    let pages := activePages m
    if pages.length > 0 ∧ m.cursor < (pages.length : Int) then
      let page := pages.getD m.cursor.toNat default
      (m, [Cmd.loadManContentCmd page.Name page.Section])
    else (m, [])
  else if k = "/" then
    ({ m with mode := .searchView, searchInput := [] }, [Cmd.blink])
  else if k = "r" then
    ({ m with loading := true }, [Cmd.loadManPagesCmd])
  else if k = "1" ∨ k = "2" ∨ k = "3" ∨ k = "4" ∨ k = "5" ∨ k = "6" ∨
          k = "7" ∨ k = "8" ∨ k = "9" then
    let m1 := { m with sectionFilters := toggleFilter k.toList m.sectionFilters }
    let m2 := { m1 with filteredPages := m1.applyFilters m1.manPages }
    let c1 := if m2.cursor ≥ (m2.filteredPages.length : Int) then
                (m2.filteredPages.length : Int) - 1
              else m2.cursor
    let c2 := if c1 < 0 then 0 else c1
    let m3 := { m2 with cursor := c2 }
    if m3.filteredPages.length > 0 then
      let page := m3.filteredPages.getD m3.cursor.toNat default
      ({ m3 with loadingPreview := true },
        [Cmd.loadPreviewCmd page.Name page.Section])
    else (m3, [])
  else (m, [])

/-- Detail-view key handling (model.go lines 347-397).  The scroll keys
(`up`/`down`/`g`/`G`/`u`/`d`) and the trailing `viewport.Update` only move
the external viewport, so they leave the model unchanged here. -/
def updateKeyDetail (m : Model) (k : String) : Model × List Cmd :=
  if k = "ctrl+c" ∨ k = "q" ∨ k = "esc" then
    ({ m with mode := .listView
              currentContent := []
              searchQuery := []
              searchMatches := [] }, [])
  else if k = "/" then
    ({ m with mode := .detailSearchView, detailSearchInput := [] }, [Cmd.blink])
  else if k = "n" then
    if m.searchMatches.length > 0 then
      ({ m with currentMatch :=
          (m.currentMatch + 1).tmod (m.searchMatches.length : Int) }, [])
    else (m, [])
  else if k = "N" then
    if m.searchMatches.length > 0 then
      let c := m.currentMatch - 1
      let c := if c < 0 then (m.searchMatches.length : Int) - 1 else c
      ({ m with currentMatch := c }, [])
    else (m, [])
  else (m, [])

/-- Search-view key handling (model.go lines 399-416). -/
def updateKeySearch (m : Model) (k : String) : Model × List Cmd :=
  if k = "esc" then ({ m with mode := .listView }, [])
  else if k = "enter" then
    let query := m.searchInput
    if query ≠ [] then
      ({ m with mode := .listView, loading := true },
        [Cmd.searchManPagesCmd query])
    else ({ m with mode := .listView }, [])
  else ({ m with searchInput := textinputUpdate m.searchInput k }, [])

/-- Detail-search-view key handling (model.go lines 418-440). -/
def updateKeyDetailSearch (m : Model) (k : String) : Model × List Cmd :=
  if k = "esc" then ({ m with mode := .detailView }, [])
  else if k = "enter" then
    let query := m.detailSearchInput
    if query ≠ [] then
      ({ m with searchQuery := query
                searchMatches := m.findMatches query
                currentMatch := 0
                mode := .detailView }, [])
    else ({ m with mode := .detailView }, [])
  else ({ m with detailSearchInput := textinputUpdate m.detailSearchInput k }, [])

/-- `Model.Update` (model.go lines 198-445): the single serialization point
of the Navigation State Machine.  Returns the new model and the list of
pending operations it issues. -/
def Model.Update (m : Model) (msg : Msg) : Model × List Cmd :=
  match msg with
  | .windowSize w h => ({ m with width := w, height := h }, [])
  | .manPagesLoaded pages => updateManPagesLoaded m pages
  | .manContentLoaded content =>
    ({ m with currentContent := content, mode := .detailView }, [])
  | .previewLoaded content =>
    ({ m with previewContent := content, loadingPreview := false }, [])
  | .errMsg e => ({ m with err := some e, loading := false }, [])
  | .key k =>
    match m.mode with
    | .listView => updateKeyList m k
    | .detailView => updateKeyDetail m k
    | .searchView => updateKeySearch m k
    | .detailSearchView => updateKeyDetailSearch m k

/-! ### Content Indexer (search.go lines 871-986)

`IndexAllManPages` runs a pool of fetch workers over the catalog; each
worker fetches raw content (`GetRawManContent`), on failure increments the
shared `processed` counter and continues, on success emits a
`ManPageDocument` and increments `processed`.  The coordinator drains the
results, counts every received document and commits batches of 100.  Here
the per-entry fetch outcome is the explicit parameter
`fetch : ManPage → Option Str` and the workers' fan-in is taken in catalog
order; the counts below are invariant under any reordering of the fan-in. -/

/-- The worker loop (search.go lines 905-930): emitted documents plus the
final value of the `processed` counter. -/
def runWorkers (fetch : ManPage → Option Str) :
    List ManPage → List ManPageDocument × Nat
  | [] => ([], 0)
  | page :: rest =>
    let r := runWorkers fetch rest
    match fetch page with
    | none => (r.1, r.2 + 1)
    | some content =>
      ({ Name := page.Name
         Section := page.Section
         Description := page.Description
         Content := content
         Path := page.Path } :: r.1, r.2 + 1)

/-- Composite document ID `name(section)` (search.go line 954). -/
def docID (doc : ManPageDocument) : Str :=
  doc.Name ++ str "(" ++ doc.Section ++ str ")"

/-- The coordinator's collect loop (search.go lines 947-982): accumulate
documents into batches of `batchSize = 100`, committing each full batch and
a final partial one; `count` counts every received document.  Returns the
committed batches and the final count.  (A bleve batch upserts by document
ID; the model records the sequence of `batch.Index` calls.) -/
def collectResults : List ManPageDocument → List (Str × ManPageDocument) →
    Nat → List (List (Str × ManPageDocument)) × Nat
  | [], batch, count =>
    (if batch.length > 0 then [batch] else [], count)
  | doc :: rest, batch, count =>
    let batch' := batch ++ [(docID doc, doc)]
    let count' := count + 1
    if count' % 100 = 0 then
      let r := collectResults rest [] count'
      (batch' :: r.1, r.2)
    else collectResults rest batch' count'

/-- `IndexAllManPages` (search.go lines 871-986) restricted to the core
pipeline: returns the successfully-indexed count, the processed count and
the committed batches.  The fatal pre-worker failures (index remove/create,
catalog listing) abort before this pipeline starts and are outside this
function, per-document fetch failures never abort it. -/
def IndexAllManPages (fetch : ManPage → Option Str) (pages : List ManPage) :
    Nat × Nat × List (List (Str × ManPageDocument)) :=
  let w := runWorkers fetch pages
  let c := collectResults w.1 [] 0
  (c.2, w.2, c.1)

/-! ### Search Result Synthesis: extractMatchingLines (search.go lines 1071-1106)

The Go function stores matching line numbers as keys of a `map[int]bool`
and then iterates the map with `for lineNum := range matchedLines`.  Go map
iteration order is unspecified, so the iteration sequence is the explicit
parameter `order`, constrained (in the theorems) to be a permutation of the
key set `matchedLineIndices content query`. -/

/-- The key set of the Go `matchedLines` map: the (ascending) indices of
lines containing the query case-insensitively (search.go lines 1077-1082). -/
def matchedLineIndices (content query : Str) : List Nat :=
  let lines := splitLines content
  let queryLower := toLowerStr query
  (List.range lines.length).filter
    (fun i => queryLower <:+: toLowerStr (lines.getD i []))

/-- Upper bound of a context window (search.go lines 1090-1093):
`lineNum + contextLines + 1` clipped to the number of lines. -/
def windowStop (lines : List Str) (contextLines lineNum : Nat) : Nat :=
  if lineNum + contextLines + 1 > lines.length then lines.length
  else lineNum + contextLines + 1

/-- One context block (search.go lines 1085-1097): the `±contextLines`
window around `lineNum`, clipped at the document bounds, joined with
newlines and trimmed.  (Go computes `start := lineNum - contextLines;
if start < 0 then 0`, which is `Nat` truncated subtraction.) -/
def contextWindow (lines : List Str) (contextLines lineNum : Nat) : Str :=
  let start := lineNum - contextLines
  let stop := windowStop lines contextLines lineNum
  trimSpace (List.intercalate (str "\n") ((lines.drop start).take (stop - start)))

/-- The extraction loop (search.go lines 1085-1103): append one context
block per visited line, stopping as soon as 3 blocks are collected. -/
def extractLoop (lines : List Str) (contextLines : Nat) :
    List Nat → List Str → List Str
  | [], acc => acc
  | lineNum :: rest, acc =>
    let acc' := acc ++ [contextWindow lines contextLines lineNum]
    if acc'.length ≥ 3 then acc'
    else extractLoop lines contextLines rest acc'

/-- `extractMatchingLines` (search.go lines 1071-1106), with the map
iteration sequence as the explicit parameter `order`. -/
def extractMatchingLines (content _query : Str) (contextLines : Nat)
    (order : List Nat) : List Str :=
  extractLoop (splitLines content) contextLines order []

/-! ### Specification-side definitions (for comparison with the code) -/

/-- From the spec's words (§4.4, claim C5): excerpts are built from the
*first 3 distinct matching lines in ascending line order*. -/
def extractMatchingLinesSpec (content query : Str) (contextLines : Nat) :
    List Str :=
  ((matchedLineIndices content query).take 3).map
    (contextWindow (splitLines content) contextLines)

/-- From the spec's words (§8, claim C4): an entry belongs to the filtered
view iff its section equals the section code of some enabled filter. -/
def enabledBySome (filters : List SectionFilter) (page : ManPage) : Prop :=
  ∃ f ∈ filters, f.Section = page.Section ∧ f.Enabled = true

instance (filters : List SectionFilter) (page : ManPage) :
    Decidable (enabledBySome filters page) := by
  unfold enabledBySome; infer_instance

/-- The cursor bound exactly as claim C3 states it: against the *filtered
view's* length. -/
def cursorFilteredBound (m : Model) : Prop :=
  0 ≤ m.cursor ∧ m.cursor ≤ max 0 ((m.filteredPages.length : Int) - 1)

instance (m : Model) : Decidable (cursorFilteredBound m) := by
  unfold cursorFilteredBound; infer_instance

/-- The corrected cursor bound: against the length of the candidate list the
list view actually navigates (`activePages`). -/
def cursorActiveBound (m : Model) : Prop :=
  0 ≤ m.cursor ∧ m.cursor ≤ max 0 (((activePages m).length : Int) - 1)

instance (m : Model) : Decidable (cursorActiveBound m) := by
  unfold cursorActiveBound; infer_instance

/-! ### Concrete scenarios used by counterexamples and witnesses -/

/-- A page in section `x` (no default filter has that code), fuzzily close
to the query `zz`. -/
def c3PageA : ManPage := ⟨str "za", str "x", [], []⟩

/-- A second page in section `x`, fuzzily close to the query `zz`. -/
def c3PageB : ManPage := ⟨str "zb", str "x", [], []⟩

/-- The state after startup with initial query `zz` once a catalog arrives
whose two entries match no enabled section filter: the filtered view is
empty and two fuzzy suggestions are displayed. -/
def c3Mid : Model :=
  ((InitialModel (str "zz")).Update (.manPagesLoaded [c3PageA, c3PageB])).1

/-- Document with case-insensitive matches for `m` on lines 0 and 7. -/
def c5content : Str := str "ma\nx\nx\nx\nx\nx\nx\nmb"

def c5query : Str := str "m"

/-- A detail-search scenario: content whose lines 0 and 5 contain `x`. -/
def c6Base : Model :=
  { InitialModel (str "") with
      mode := .detailSearchView
      currentContent := str "x1\na\nb\nc\nd\nx2"
      detailSearchInput := str "x" }

/-- After committing the detail search. -/
def c6Committed : Model := (c6Base.Update (.key "enter")).1

/-- After one `n`. -/
def c6N1 : Model := (c6Committed.Update (.key "n")).1

/-- After a second `n`. -/
def c6N2 : Model := (c6N1.Update (.key "n")).1

/-- After `N` from the first match. -/
def c6P : Model := (c6Committed.Update (.key "N")).1

/-- A model with a stored error, about to receive a successful catalog. -/
def c8Model : Model := { InitialModel (str "") with err := some (str "boom") }

/-- An ordinary section-1 page. -/
def c8Page : ManPage := ⟨str "ls", str "1", [], []⟩

/-- A 250-entry catalog whose first 10 entries will fail to fetch
(marked by their path). -/
def pages250 : List ManPage :=
  (List.range 250).map
    (fun i => ⟨str "p", str "1", [], if i < 10 then str "F" else str "o"⟩)

/-- The fetch-outcome assignment failing exactly on the marked paths. -/
def fetch250 : ManPage → Option Str :=
  fun p => if p.Path = str "F" then none else some (str "c")

/-! ## Theorems -/

/-! ### Edit distance (C9) -/

theorem M_zero_left (a b : Str) (j : Nat) : M a b 0 j = j := rfl

theorem M_succ_zero (a b : Str) (i : Nat) : M a b (i + 1) 0 = i + 1 := rfl

theorem M_succ_succ (a b : Str) (i j : Nat) :
    M a b (i + 1) (j + 1) =
      min (M a b i (j + 1) + 1)
        (min (M a b (i + 1) j + 1)
          (M a b i j + (if a.getD i ' ' = b.getD j ' ' then 0 else 1))) := rfl

theorem M_symm (a b : Str) : ∀ i j, M a b i j = M b a j i := by
  intro i
  induction i with
  | zero => intro j; cases j <;> rfl
  | succ i ih =>
    intro j
    induction j with
    | zero => rfl
    | succ j ihj =>
      have hc : (if a.getD i ' ' = b.getD j ' ' then 0 else 1) =
          (if b.getD j ' ' = a.getD i ' ' then 0 else 1) := by
        by_cases h : a.getD i ' ' = b.getD j ' '
        · rw [if_pos h, if_pos h.symm]
        · rw [if_neg h, if_neg (fun h2 => h h2.symm)]
      rw [M_succ_succ, M_succ_succ, ih (j + 1), ihj, ih j, hc,
        min_left_comm (M b a (j + 1) i + 1)]

theorem M_self_diag (a : Str) : ∀ i, M a a i i = 0 := by
  intro i
  induction i with
  | zero => rfl
  | succ i ih =>
    rw [M_succ_succ, ih, if_pos rfl]
    simp

theorem levenshteinDistance_symm (a b : Str) :
    levenshteinDistance a b = levenshteinDistance b a := by
  unfold levenshteinDistance
  by_cases h1 : (toLowerStr a).length = 0
  · by_cases h2 : (toLowerStr b).length = 0 <;> simp [h1, h2]
  · by_cases h2 : (toLowerStr b).length = 0 <;> simp [h1, h2]
    exact M_symm _ _ _ _

theorem levenshteinDistance_self (a : Str) : levenshteinDistance a a = 0 := by
  unfold levenshteinDistance
  by_cases h : (toLowerStr a).length = 0 <;> simp [h]
  exact M_self_diag _ _

/-- C9: the edit distance is symmetric, is zero on identical strings, and
`levenshteinDistance "grep" "grpe" = 2`. -/
theorem C9_edit_distance_symm_zero :
    (∀ a b : Str, levenshteinDistance a b = levenshteinDistance b a)
    ∧ (∀ a : Str, levenshteinDistance a a = 0)
    ∧ levenshteinDistance (str "grep") (str "grpe") = 2 :=
  ⟨levenshteinDistance_symm, levenshteinDistance_self, by decide⟩

/-! ### Filtered view (C4) -/

theorem filterHit_eq_decide (page : ManPage) (fs : List SectionFilter) :
    filterHit page fs = decide (enabledBySome fs page) := by
  induction fs with
  | nil => simp [filterHit, enabledBySome]
  | cons f rest ih =>
    by_cases h : f.Section = page.Section ∧ f.Enabled = true
    · simp [filterHit, enabledBySome, h]
    · simp only [filterHit, if_neg h, ih]
      simp only [enabledBySome, List.mem_cons, decide_eq_decide]
      constructor
      · rintro ⟨g, hg, hgs⟩; exact ⟨g, Or.inr hg, hgs⟩
      · rintro ⟨g, hg | hg, hgs⟩
        · exact absurd (hg ▸ hgs) h
        · exact ⟨g, hg, hgs⟩

theorem applyFilters_eq_filter (m : Model) (pages : List ManPage) :
    m.applyFilters pages =
      pages.filter (fun page => filterHit page m.sectionFilters) := by
  induction pages with
  | nil => rfl
  | cons page rest ih =>
    by_cases h : filterHit page m.sectionFilters
    · simp [Model.applyFilters, List.filter, h, ih]
    · simp only [Bool.not_eq_true] at h
      simp [Model.applyFilters, List.filter, h, ih]

/-- C4: for every catalog and filter state, the filtered view computed by
`applyFilters` is exactly the order-preserving subsequence of the catalog
consisting of the entries whose section equals the section code of some
enabled filter. -/
theorem C4_applyFilters_subsequence (m : Model) (pages : List ManPage) :
    m.applyFilters pages =
      pages.filter (fun page => decide (enabledBySome m.sectionFilters page))
    ∧ (m.applyFilters pages).Sublist pages := by
  have h : m.applyFilters pages =
      pages.filter (fun page => decide (enabledBySome m.sectionFilters page)) := by
    rw [applyFilters_eq_filter]
    exact List.filter_congr (fun p _ => filterHit_eq_decide p m.sectionFilters)
  exact ⟨h, h ▸ List.filter_sublist pages⟩

/-! ### Fuzzy suggestions (C2) -/

theorem scorePages_mem {q : Str} {l : List ManPage} {s : scoredPage}
    (h : s ∈ scorePages q l) :
    s.score = adjustedDistance q s.page ∧ s.score ≤ 5 ∧ s.page ∈ l := by
  induction l with
  | nil => simp [scorePages] at h
  | cons page rest ih =>
    by_cases hc : toLowerStr q <:+: toLowerStr page.Name
    · by_cases h5 : (levenshteinDistance q page.Name : Int) - 5 ≤ 5
      · simp only [scorePages, hc, if_pos, if_neg, ite_true, h5] at h
        rcases List.mem_cons.mp h with hh | hh
        · subst hh
          simp [adjustedDistance, hc, h5]
        · rcases ih hh with ⟨h1, h2, h3⟩
          exact ⟨h1, h2, List.mem_cons_of_mem _ h3⟩
      · simp only [scorePages, hc, ite_true, h5, ite_false] at h
        rcases ih h with ⟨h1, h2, h3⟩
        exact ⟨h1, h2, List.mem_cons_of_mem _ h3⟩
    · by_cases h5 : (levenshteinDistance q page.Name : Int) ≤ 5
      · simp only [scorePages, hc, ite_false, h5, ite_true] at h
        rcases List.mem_cons.mp h with hh | hh
        · subst hh
          simp [adjustedDistance, hc, h5]
        · rcases ih hh with ⟨h1, h2, h3⟩
          exact ⟨h1, h2, List.mem_cons_of_mem _ h3⟩
      · simp only [scorePages, hc, ite_false, h5] at h
        rcases ih h with ⟨h1, h2, h3⟩
        exact ⟨h1, h2, List.mem_cons_of_mem _ h3⟩

theorem innerPass_perm (x : scoredPage) (l : List scoredPage) :
    List.Perm ((innerPass x l).1 :: (innerPass x l).2) (x :: l) := by
  induction l generalizing x with
  | nil => exact List.Perm.refl _
  | cons y rest ih =>
    simp only [innerPass]
    split
    · exact (List.Perm.swap x _ _).trans ((ih y).cons x)
    · exact ((List.Perm.swap y _ _).trans ((ih x).cons y)).trans
        (List.Perm.swap x y rest)

theorem innerPass_min (x : scoredPage) (l : List scoredPage) :
    (innerPass x l).1.score ≤ x.score ∧
      ∀ y ∈ (innerPass x l).2, (innerPass x l).1.score ≤ y.score := by
  induction l generalizing x with
  | nil => exact ⟨le_refl _, by simp [innerPass]⟩
  | cons y rest ih =>
    simp only [innerPass]
    split
    case isTrue h =>
      refine ⟨(ih y).1.trans h.le, ?_⟩
      intro z hz
      rcases List.mem_cons.mp hz with rfl | hh
      · exact (ih y).1.trans h.le
      · exact (ih y).2 z hh
    case isFalse h =>
      refine ⟨(ih x).1, ?_⟩
      intro z hz
      rcases List.mem_cons.mp hz with rfl | hh
      · exact (ih x).1.trans (not_lt.mp h)
      · exact (ih x).2 z hh

theorem innerPass_length (x : scoredPage) (l : List scoredPage) :
    (innerPass x l).2.length = l.length := by
  induction l generalizing x with
  | nil => rfl
  | cons y rest ih =>
    simp only [innerPass]
    split <;> simp [ih]

theorem sortGo_perm (fuel : Nat) (l : List scoredPage) :
    List.Perm (sortGo fuel l) l := by
  induction fuel generalizing l with
  | zero => cases l <;> exact List.Perm.refl _
  | succ fuel ih =>
    cases l with
    | nil => exact List.Perm.refl _
    | cons x rest =>
      simp only [sortGo]
      exact ((ih _).cons _).trans (innerPass_perm x rest)

theorem sortGo_sorted (fuel : Nat) (l : List scoredPage)
    (h : l.length ≤ fuel) :
    (sortGo fuel l).Pairwise (fun a b => a.score ≤ b.score) := by
  induction fuel generalizing l with
  | zero =>
    have : l = [] := List.length_eq_zero.mp (Nat.le_zero.mp h)
    subst this
    simp [sortGo]
  | succ fuel ih =>
    cases l with
    | nil => simp [sortGo]
    | cons x rest =>
      simp only [sortGo, List.pairwise_cons]
      constructor
      · intro y hy
        have hy2 : y ∈ (innerPass x rest).2 :=
          (sortGo_perm fuel _).mem_iff.mp hy
        exact (innerPass_min x rest).2 y hy2
      · apply ih
        rw [innerPass_length]
        simpa using Nat.succ_le_succ_iff.mp h

/-- C2: for every query and catalog, `findFuzzySuggestions` returns at most
10 entries; every returned entry's adjusted distance is ≤ 5; the list is
sorted in ascending adjusted distance; and the function is pure and
deterministic. -/
theorem C2_fuzzy_suggestions (m : Model) (q : Str) (catalog : List ManPage) :
    (m.findFuzzySuggestions q catalog).length ≤ 10
    ∧ (∀ p ∈ m.findFuzzySuggestions q catalog, adjustedDistance q p ≤ 5)
    ∧ (m.findFuzzySuggestions q catalog).Pairwise
        (fun p1 p2 => adjustedDistance q p1 ≤ adjustedDistance q p2)
    ∧ m.findFuzzySuggestions q catalog = m.findFuzzySuggestions q catalog := by
  have hmem : ∀ s ∈ sortScored (scorePages q catalog),
      s.score = adjustedDistance q s.page ∧ s.score ≤ 5 := by
    intro s hs
    have : s ∈ scorePages q catalog := (sortGo_perm _ _).mem_iff.mp hs
    exact ⟨(scorePages_mem this).1, (scorePages_mem this).2.1⟩
  have hsorted : (sortScored (scorePages q catalog)).Pairwise
      (fun a b => a.score ≤ b.score) :=
    sortGo_sorted _ _ (le_refl _)
  refine ⟨?_, ?_, ?_, rfl⟩
  · simp only [Model.findFuzzySuggestions, List.length_map, List.length_take]
    split <;> omega
  · intro p hp
    simp only [Model.findFuzzySuggestions, List.mem_map] at hp
    rcases hp with ⟨s, hs, rfl⟩
    have hs2 : s ∈ sortScored (scorePages q catalog) :=
      List.take_subset _ _ hs
    rcases hmem s hs2 with ⟨h1, h2⟩
    exact h1 ▸ h2
  · simp only [Model.findFuzzySuggestions]
    rw [List.pairwise_map]
    have htake : (List.take (if (sortScored (scorePages q catalog)).length < 10
          then (sortScored (scorePages q catalog)).length else 10)
        (sortScored (scorePages q catalog))).Pairwise
        (fun a b => a.score ≤ b.score) :=
      hsorted.sublist (List.take_sublist _ _)
    refine htake.imp_of_mem ?_
    intro a b ha hb hab
    have ha2 := hmem a (List.take_subset _ _ ha)
    have hb2 := hmem b (List.take_subset _ _ hb)
    rw [← ha2.1, ← hb2.1]
    exact hab

/-! ### In-document search (C6) -/

theorem matchLoop_ge (s : Str) (ls : List Str) :
    ∀ i j, j ∈ matchLoop s ls i → i ≤ j := by
  induction ls with
  | nil => intro i j h; simp [matchLoop] at h
  | cons line rest ih =>
    intro i j h
    by_cases hc : s <:+: toLowerStr line
    · simp only [matchLoop, if_pos hc, List.mem_cons] at h
      rcases h with rfl | h
      · exact le_refl _
      · exact (Nat.le_succ i).trans (ih _ _ h)
    · simp only [matchLoop, if_neg hc] at h
      exact (Nat.le_succ i).trans (ih _ _ h)

theorem matchLoop_sorted (s : Str) (ls : List Str) :
    ∀ i, (matchLoop s ls i).Pairwise (· < ·) := by
  induction ls with
  | nil => intro i; simp [matchLoop]
  | cons line rest ih =>
    intro i
    by_cases hc : s <:+: toLowerStr line
    · simp only [matchLoop, if_pos hc, List.pairwise_cons]
      exact ⟨fun j hj => lt_of_lt_of_le (Nat.lt_succ_self i) (matchLoop_ge s rest _ _ hj),
        ih _⟩
    · simp only [matchLoop, if_neg hc]
      exact ih _

theorem matchLoop_mem (s : Str) (ls : List Str) :
    ∀ i j, j ∈ matchLoop s ls i ↔
      i ≤ j ∧ j - i < ls.length ∧ s <:+: toLowerStr (ls.getD (j - i) []) := by
  induction ls with
  | nil => intro i j; simp [matchLoop]
  | cons line rest ih =>
    intro i j
    by_cases hc : s <:+: toLowerStr line
    · simp only [matchLoop, if_pos hc, List.mem_cons]
      constructor
      · rintro (rfl | h)
        · simpa using hc
        · rcases (ih (i + 1) j).mp h with ⟨h1, h2, h3⟩
          have he : j - i = (j - (i + 1)) + 1 := by omega
          refine ⟨by omega, by simp only [List.length_cons]; omega, ?_⟩
          rw [he, List.getD_cons_succ]
          exact h3
      · rintro ⟨h1, h2, h3⟩
        by_cases hji : j = i
        · exact Or.inl hji
        · right
          apply (ih (i + 1) j).mpr
          have he : j - i = (j - (i + 1)) + 1 := by omega
          rw [he, List.getD_cons_succ] at h3
          simp only [List.length_cons] at h2
          exact ⟨by omega, by omega, h3⟩
    · simp only [matchLoop, if_neg hc]
      rw [ih (i + 1) j]
      constructor
      · rintro ⟨h1, h2, h3⟩
        have he : j - i = (j - (i + 1)) + 1 := by omega
        refine ⟨by omega, by simp only [List.length_cons]; omega, ?_⟩
        rw [he, List.getD_cons_succ]
        exact h3
      · rintro ⟨h1, h2, h3⟩
        by_cases hji : j = i
        · subst hji
          simp only [Nat.sub_self, List.getD_cons_zero] at h3
          exact absurd h3 hc
        · have he : j - i = (j - (i + 1)) + 1 := by omega
          rw [he, List.getD_cons_succ] at h3
          simp only [List.length_cons] at h2
          exact ⟨by omega, by omega, h3⟩

theorem findMatches_mem (m : Model) (q : Str) (hq : q ≠ []) (j : Nat) :
    j ∈ m.findMatches q ↔
      j < (splitLines m.currentContent).length ∧
      toLowerStr q <:+: toLowerStr ((splitLines m.currentContent).getD j []) := by
  unfold Model.findMatches
  by_cases hcc : m.currentContent = []
  · simp only [hq, hcc, or_true, ite_true, List.not_mem_nil, false_iff, not_and]
    intro hj
    simp only [splitLines, List.length_cons, List.length_nil] at hj
    interval_cases j
    simp only [splitLines, List.getD_cons_zero]
    intro hinf
    have : toLowerStr q = [] := List.infix_nil.mp (by simpa [toLowerStr] using hinf)
    exact hq (by simpa [toLowerStr] using congrArg List.length this)
  · simp only [hq, hcc, or_self, ite_false]
    rw [matchLoop_mem]
    simp

theorem findMatches_sorted (m : Model) (q : Str) :
    (m.findMatches q).Pairwise (· < ·) := by
  unfold Model.findMatches
  split
  · simp
  · exact matchLoop_sorted _ _ _

/-- C6: for every loaded content and non-empty query, committing an
in-document search computes exactly the ascending indices of lines
containing the query case-insensitively (no cap) and lands on the first
match; `n` advances cyclically modulo the match count and `N` moves back,
wrapping from the first match to the last. -/
theorem C6_in_document_search (m : Model) (q : Str) :
    (q ≠ [] → ∀ j, (j ∈ m.findMatches q ↔
        j < (splitLines m.currentContent).length ∧
        toLowerStr q <:+: toLowerStr ((splitLines m.currentContent).getD j [])))
    ∧ (m.findMatches q).Pairwise (· < ·)
    ∧ (m.mode = .detailSearchView → m.detailSearchInput = q → q ≠ [] →
        (m.Update (.key "enter")).1.searchQuery = q
        ∧ (m.Update (.key "enter")).1.searchMatches = m.findMatches q
        ∧ (m.Update (.key "enter")).1.currentMatch = 0
        ∧ (m.Update (.key "enter")).1.mode = .detailView)
    ∧ (m.mode = .detailView → 0 ≤ m.currentMatch → 0 < m.searchMatches.length →
        (m.Update (.key "n")).1.currentMatch =
          (m.currentMatch + 1) % (m.searchMatches.length : Int))
    ∧ (m.mode = .detailView → 0 ≤ m.currentMatch → 0 < m.searchMatches.length →
        (m.Update (.key "N")).1.currentMatch =
          (if m.currentMatch = 0 then (m.searchMatches.length : Int) - 1
           else m.currentMatch - 1)) := by
  refine ⟨findMatches_mem m q, findMatches_sorted m q, ?_, ?_, ?_⟩
  · intro h1 h2 h3
    subst h2
    simp [Model.Update, h1, updateKeyDetailSearch, h3]
  · intro h1 h2 h3
    simp only [Model.Update, h1]
    simp [updateKeyDetail, h3]
    exact Int.tmod_eq_emod (by omega) (by omega)
  · intro h1 h2 h3
    simp only [Model.Update, h1]
    simp [updateKeyDetail, h3]
    split_ifs <;> omega

/-- Witness for C6: the concrete scenario with matching lines 0 and 5 —
commit yields matches `[0, 5]` landing on line 0, `n` moves to line 5,
a second `n` wraps to line 0, and `N` from the first match wraps to
line 5. -/
theorem C6_in_document_search_witness :
    ((c6Base.Update (.key "enter")).1.searchQuery = str "x"
      ∧ (c6Base.Update (.key "enter")).1.searchMatches =
          c6Base.findMatches (str "x")
      ∧ (c6Base.Update (.key "enter")).1.currentMatch = 0
      ∧ (c6Base.Update (.key "enter")).1.mode = .detailView)
    ∧ c6Committed.searchMatches = [0, 5]
    ∧ c6Committed.searchMatches.getD c6Committed.currentMatch.toNat 99 = 0
    ∧ c6N1.searchMatches.getD c6N1.currentMatch.toNat 99 = 5
    ∧ c6N2.searchMatches.getD c6N2.currentMatch.toNat 99 = 0
    ∧ c6P.searchMatches.getD c6P.currentMatch.toNat 99 = 5 :=
  ⟨(C6_in_document_search c6Base (str "x")).2.2.1 (by decide) (by decide)
      (by decide),
    by decide, by decide, by decide, by decide, by decide⟩

/-! ### Content Indexer counts (C1) -/

theorem runWorkers_processed (fetch : ManPage → Option Str)
    (pages : List ManPage) : (runWorkers fetch pages).2 = pages.length := by
  induction pages with
  | nil => rfl
  | cons page rest ih =>
    cases hf : fetch page <;> simp [runWorkers, hf, ih]

theorem runWorkers_docs (fetch : ManPage → Option Str)
    (pages : List ManPage) :
    (runWorkers fetch pages).1.length +
      (pages.filter (fun p => (fetch p).isNone)).length = pages.length := by
  induction pages with
  | nil => rfl
  | cons page rest ih =>
    cases hf : fetch page <;>
      simp only [runWorkers, hf, List.filter, Option.isNone_none,
        Option.isNone_some, List.length_cons] <;> omega

theorem collectResults_count (docs : List ManPageDocument) :
    ∀ batch count, (collectResults docs batch count).2 = count + docs.length := by
  induction docs with
  | nil => intro batch count; simp [collectResults]
  | cons doc rest ih =>
    intro batch count
    simp only [collectResults]
    split <;> simp [ih] <;> omega

/-- C1: for every catalog and every per-entry fetch-outcome assignment, the
rebuild yields processed = catalog size and indexed = processed − (number
of fetch failures); a failing fetch only bumps the processed counter and
emits no document.  In particular a 250-entry catalog with 10 fetch
failures yields 240 indexed and 250 processed. -/
theorem C1_indexing_counts :
    (∀ (fetch : ManPage → Option Str) (pages : List ManPage),
      (IndexAllManPages fetch pages).2.1 = pages.length
      ∧ (IndexAllManPages fetch pages).1 +
          (pages.filter (fun p => (fetch p).isNone)).length = pages.length
      ∧ (IndexAllManPages fetch pages).1 =
          pages.length - (pages.filter (fun p => (fetch p).isNone)).length)
    ∧ (IndexAllManPages fetch250 pages250).1 = 240
    ∧ (IndexAllManPages fetch250 pages250).2.1 = 250 := by
  have hgen : ∀ (fetch : ManPage → Option Str) (pages : List ManPage),
      (IndexAllManPages fetch pages).2.1 = pages.length
      ∧ (IndexAllManPages fetch pages).1 +
          (pages.filter (fun p => (fetch p).isNone)).length = pages.length
      ∧ (IndexAllManPages fetch pages).1 =
          pages.length - (pages.filter (fun p => (fetch p).isNone)).length := by
    intro fetch pages
    have h1 : (IndexAllManPages fetch pages).2.1 = pages.length := by
      simp [IndexAllManPages, runWorkers_processed]
    have h2 : (IndexAllManPages fetch pages).1 +
        (pages.filter (fun p => (fetch p).isNone)).length = pages.length := by
      simp only [IndexAllManPages, collectResults_count, Nat.zero_add]
      exact runWorkers_docs fetch pages
    exact ⟨h1, h2, by omega⟩
  refine ⟨hgen, ?_, ?_⟩
  · have h := (hgen fetch250 pages250).2.2
    have hlen : pages250.length = 250 := by simp [pages250]
    have hfail : (pages250.filter (fun p => (fetch250 p).isNone)).length = 10 := by
      decide
    omega
  · have h := (hgen fetch250 pages250).1
    have hlen : pages250.length = 250 := by simp [pages250]
    omega

/-! ### Excerpt extraction (C5) -/

theorem extractLoop_eq (lines : List Str) (k : Nat) :
    ∀ (ord : List Nat) (acc : List Str), acc.length < 3 →
      extractLoop lines k ord acc =
        acc ++ (ord.take (3 - acc.length)).map (contextWindow lines k) := by
  intro ord
  induction ord with
  | nil => intro acc h; simp [extractLoop]
  | cons x rest ih =>
    intro acc h
    simp only [extractLoop]
    split
    case isTrue hlen =>
      have h2 : acc.length = 2 := by
        simp only [List.length_append, List.length_cons, List.length_nil] at hlen
        omega
      rw [show 3 - acc.length = 1 from by omega]
      simp
    case isFalse hlen =>
      have h3 : (acc ++ [contextWindow lines k x]).length < 3 := by
        simp only [List.length_append, List.length_cons, List.length_nil] at hlen ⊢
        omega
      rw [ih _ h3]
      rw [show 3 - acc.length = (3 - (acc ++ [contextWindow lines k x]).length) + 1
        from by simp; omega]
      rw [List.take_succ_cons]
      simp

theorem extractMatchingLines_eq (content query : Str) (k : Nat)
    (ord : List Nat) :
    extractMatchingLines content query k ord =
      (ord.take 3).map (contextWindow (splitLines content) k) := by
  unfold extractMatchingLines
  rw [extractLoop_eq _ _ ord [] (by simp)]
  simp

theorem matchedLineIndices_nodup (content query : Str) :
    (matchedLineIndices content query).Nodup :=
  (List.nodup_range _).filter _

/-- C5 (amended): for every document, query and map-iteration order, excerpt
extraction returns at most 3 blocks; each block is the trimmed, joined
`±3`-line context window (clipped at document bounds, hence at most 7
lines) around a distinct matching line; the blocks follow the first ≤ 3
entries of the map's iteration order, which is *not* guaranteed to be the
ascending (first-3) order. -/
theorem C5_excerpt_windows (content query : Str) (order : List Nat)
    (hord : List.Perm order (matchedLineIndices content query)) :
    extractMatchingLines content query 3 order =
      (order.take 3).map (contextWindow (splitLines content) 3)
    ∧ (extractMatchingLines content query 3 order).length ≤ 3
    ∧ (∀ b ∈ extractMatchingLines content query 3 order,
        ∃ i ∈ matchedLineIndices content query,
          b = contextWindow (splitLines content) 3 i)
    ∧ (order.take 3).Nodup
    ∧ (∀ (lines : List Str) (i : Nat),
        windowStop lines 3 i ≤ lines.length ∧
        windowStop lines 3 i - (i - 3) ≤ 7) := by
  have heq := extractMatchingLines_eq content query 3 order
  refine ⟨heq, ?_, ?_, ?_, ?_⟩
  · rw [heq]
    simp only [List.length_map, List.length_take]
    omega
  · intro b hb
    rw [heq] at hb
    rcases List.mem_map.mp hb with ⟨i, hi, rfl⟩
    exact ⟨i, hord.mem_iff.mp (List.take_subset _ _ hi), rfl⟩
  · exact (hord.nodup_iff.mpr (matchedLineIndices_nodup content query)).sublist
      (List.take_sublist _ _)
  · intro lines i
    unfold windowStop
    split <;> omega

/-- Witness for C5: the ascending iteration order on the two matching lines
of the concrete document. -/
theorem C5_excerpt_windows_witness :
    extractMatchingLines c5content c5query 3 [0, 7] =
      ([0, 7].take 3).map (contextWindow (splitLines c5content) 3)
    ∧ (extractMatchingLines c5content c5query 3 [0, 7]).length ≤ 3 :=
  ⟨(C5_excerpt_windows c5content c5query [0, 7] (by decide)).1,
   (C5_excerpt_windows c5content c5query [0, 7] (by decide)).2.1⟩

/-- Counterexample for C5 as stated: the document has matching lines 0 and
7, and the map iteration order `[7, 0]` (a legal Go map iteration of the
key set) produces the two context blocks in descending line order, not the
spec's first-3-ascending order. -/
theorem C5_map_order_cex :
    List.Perm [7, 0] (matchedLineIndices c5content c5query)
    ∧ extractMatchingLines c5content c5query 3 [7, 0] ≠
        extractMatchingLinesSpec c5content c5query 3 := by decide

/-! ### Preview failure routing (C10) -/

/-- C10: a failing preview fetch is delivered as an ordinary
`previewLoadedMsg` whose content is `Error loading preview: <cause>` —
never through the error channel — and handling a `previewLoadedMsg` only
updates the preview content and clears the preview-loading flag, leaving
the error field and the global loading flag (and everything else)
unchanged. -/
theorem C10_preview_error_channel :
    (∀ res : Except Str Str, ∃ c, loadPreview res = .previewLoaded c)
    ∧ (∀ e, loadPreview (.error e) =
        .previewLoaded (str "Error loading preview: " ++ e))
    ∧ (∀ c, loadPreview (.ok c) = .previewLoaded c)
    ∧ (∀ (m : Model) (c : Str),
        m.Update (.previewLoaded c) =
          ({ m with previewContent := c, loadingPreview := false }, [])) := by
  refine ⟨?_, fun e => rfl, fun c => rfl, fun m c => rfl⟩
  intro res
  cases res with
  | error e => exact ⟨_, rfl⟩
  | ok c => exact ⟨_, rfl⟩

/-! ### Error recording (C8) -/

/-- C8 (amended): every error-carrying result message sets the error field
and clears the loading flag; but the stored error is *never* cleared by a
later successful operation — successful catalog, content and preview loads
all leave the error field unchanged. -/
theorem C8_error_recording :
    (∀ (m : Model) (e : Str),
      m.Update (.errMsg e) = ({ m with err := some e, loading := false }, []))
    ∧ (∀ (m : Model) (pages : List ManPage),
      (m.Update (.manPagesLoaded pages)).1.err = m.err)
    ∧ (∀ (m : Model) (c : Str), (m.Update (.manContentLoaded c)).1.err = m.err)
    ∧ (∀ (m : Model) (c : Str), (m.Update (.previewLoaded c)).1.err = m.err) := by
  refine ⟨fun m e => rfl, ?_, fun m c => rfl, fun m c => rfl⟩
  intro m pages
  simp only [Model.Update, updateManPagesLoaded]
  split
  · split
    · simp
    · split
      · split <;> simp
      · split <;> simp
  · split <;> simp

/-- Counterexample for C8 as stated: a stored error survives the next
successful catalog load (the handler clears the loading flag but never
resets the error field). -/
theorem C8_error_not_cleared_cex :
    c8Model.err = some (str "boom")
    ∧ (c8Model.Update (.manPagesLoaded [c8Page])).1.loading = false
    ∧ (c8Model.Update (.manPagesLoaded [c8Page])).1.err ≠ none := by decide

/-! ### Initial-query startup behavior (C7) -/

/-- C7: when a catalog arrives with a non-empty initial query — zero
filtered matches computes the fuzzy suggestions and prefetches a preview
for the top one; exactly one match issues a Detail content load for that
entry; multiple matches issue the normal first-item preview; and in every
outcome the initial-query flag is cleared.  With the flag empty the
startup behavior is never reapplied: later catalog loads leave the
suggestions unchanged and only issue a first-item preview. -/
theorem C7_initial_query_behavior :
    (∀ (m : Model) (pages : List ManPage), m.initialQuery ≠ [] →
      (m.Update (.manPagesLoaded pages)).1.initialQuery = []
      ∧ (m.applyFilters pages = [] →
          (m.Update (.manPagesLoaded pages)).1.noMatchSuggestions =
            m.findFuzzySuggestions m.initialQuery pages
          ∧ (∀ p rest, m.findFuzzySuggestions m.initialQuery pages = p :: rest →
              (m.Update (.manPagesLoaded pages)).2 =
                [Cmd.loadPreviewCmd p.Name p.Section])
          ∧ (m.findFuzzySuggestions m.initialQuery pages = [] →
              (m.Update (.manPagesLoaded pages)).2 = []))
      ∧ (∀ p, m.applyFilters pages = [p] →
          (m.Update (.manPagesLoaded pages)).2 =
            [Cmd.loadManContentCmd p.Name p.Section])
      ∧ (∀ p q rest, m.applyFilters pages = p :: q :: rest →
          (m.Update (.manPagesLoaded pages)).2 =
            [Cmd.loadPreviewCmd p.Name p.Section]))
    ∧ (∀ (m : Model) (pages : List ManPage), m.initialQuery = [] →
      (m.Update (.manPagesLoaded pages)).1.noMatchSuggestions =
        m.noMatchSuggestions
      ∧ (m.Update (.manPagesLoaded pages)).1.initialQuery = []
      ∧ ∀ cmd ∈ (m.Update (.manPagesLoaded pages)).2,
          ∃ p rest, m.applyFilters pages = p :: rest ∧
            cmd = Cmd.loadPreviewCmd p.Name p.Section) := by
  constructor
  · intro m pages h
    refine ⟨?_, ?_, ?_, ?_⟩
    · simp only [Model.Update, updateManPagesLoaded]
      split
      · split
        · simp
        · split
          · split <;> simp_all
          · split <;> simp
      · simp_all
    · intro hf
      refine ⟨?_, ?_, ?_⟩
      · simp [Model.Update, updateManPagesLoaded, h, hf,
          Model.findFuzzySuggestions]
      · intro p rest hsug
        simp only [Model.findFuzzySuggestions] at hsug
        simp [Model.Update, updateManPagesLoaded, h, hf,
          Model.findFuzzySuggestions, hsug]
      · intro hsug
        simp only [Model.findFuzzySuggestions] at hsug
        simp [Model.Update, updateManPagesLoaded, h, hf,
          Model.findFuzzySuggestions, hsug]
    · intro p hf
      simp [Model.Update, updateManPagesLoaded, h, hf]
    · intro p q rest hf
      simp [Model.Update, updateManPagesLoaded, h, hf]
  · intro m pages h
    refine ⟨?_, ?_, ?_⟩
    · simp only [Model.Update, updateManPagesLoaded, h]
      simp only [ne_eq, not_true_eq_false, ite_false]
      split <;> simp
    · simp only [Model.Update, updateManPagesLoaded, h]
      simp only [ne_eq, not_true_eq_false, ite_false]
      split <;> simp [h]
    · simp only [Model.Update, updateManPagesLoaded, h]
      simp only [ne_eq, not_true_eq_false, ite_false]
      split
      case _ p rest heq =>
        intro cmd hcmd
        simp only [List.mem_cons, List.not_mem_nil, or_false] at hcmd
        exact ⟨p, rest, heq, hcmd⟩
      case _ heq =>
        intro cmd hcmd
        simp at hcmd

/-- Witness for C7: startup query `zz` against a catalog whose single entry
matches no enabled filter — zero matches, so the fuzzy suggestions are
computed, the top suggestion's preview is prefetched, and the flag is
consumed. -/
theorem C7_initial_query_behavior_witness :
    ((InitialModel (str "zz")).Update (.manPagesLoaded [c3PageA])).1.initialQuery
        = []
    ∧ ((InitialModel (str "zz")).Update
        (.manPagesLoaded [c3PageA])).1.noMatchSuggestions =
        (InitialModel (str "zz")).findFuzzySuggestions
          (InitialModel (str "zz")).initialQuery [c3PageA]
    ∧ ((InitialModel (str "zz")).Update (.manPagesLoaded [c3PageA])).2 =
        [Cmd.loadPreviewCmd c3PageA.Name c3PageA.Section] := by
  have h := (C7_initial_query_behavior).1 (InitialModel (str "zz")) [c3PageA]
    (by decide)
  refine ⟨h.1, (h.2.1 (by decide)).1, ?_⟩
  exact (h.2.1 (by decide)).2.1 c3PageA [] (by decide)

/-! ### Cursor bound invariant (C3) -/

theorem cursorActiveBound_of {m m' : Model} (hc : m'.cursor = m.cursor)
    (hf : m'.filteredPages = m.filteredPages)
    (hn : m'.noMatchSuggestions = m.noMatchSuggestions)
    (h : cursorActiveBound m) : cursorActiveBound m' := by
  unfold cursorActiveBound activePages at *
  rw [hc, hf, hn]
  exact h

theorem cursorActiveBound_zero {m' : Model} (hc : m'.cursor = 0) :
    cursorActiveBound m' := by
  unfold cursorActiveBound
  rw [hc]
  exact ⟨le_refl 0, le_max_left 0 _⟩

theorem cursorActiveBound_iff (m : Model) :
    cursorActiveBound m ↔
      0 ≤ m.cursor ∧
        (m.cursor = 0 ∨ m.cursor < ((activePages m).length : Int)) := by
  unfold cursorActiveBound
  rw [le_max_iff]
  omega

/-- C3 (amended): after every message the cursor satisfies
`0 ≤ cursor ≤ max 0 (len(active candidate list) − 1)`, where the active
candidate list is the fuzzy-suggestion list when the filtered view is empty
and suggestions are present, and the filtered view otherwise. -/
theorem C3_cursor_bound (m : Model) (msg : Msg)
    (h : cursorActiveBound m) : cursorActiveBound (m.Update msg).1 := by
  cases msg with
  | windowSize w hh => exact cursorActiveBound_of rfl rfl rfl h
  | manContentLoaded c => exact cursorActiveBound_of rfl rfl rfl h
  | previewLoaded c => exact cursorActiveBound_of rfl rfl rfl h
  | errMsg e => exact cursorActiveBound_of rfl rfl rfl h
  | manPagesLoaded pages =>
    apply cursorActiveBound_zero
    simp only [Model.Update, updateManPagesLoaded]
    split
    · split
      · simp
      · split
        · split <;> simp
        · split <;> simp
    · split <;> simp
  | key k =>
    show cursorActiveBound (match m.mode with
      | .listView => updateKeyList m k
      | .detailView => updateKeyDetail m k
      | .searchView => updateKeySearch m k
      | .detailSearchView => updateKeyDetailSearch m k).1
    cases hm : m.mode with
    | listView =>
      simp only [updateKeyList]
      by_cases hk1 : k = "ctrl+c" ∨ k = "q"
      · rw [if_pos hk1]; exact h
      rw [if_neg hk1]
      by_cases hk2 : k = "up" ∨ k = "k"
      · rw [if_pos hk2]
        by_cases hc : m.cursor > 0
        · rw [if_pos hc]
          have hb : cursorActiveBound { m with cursor := m.cursor - 1 } := by
            rw [cursorActiveBound_iff] at h ⊢
            simp only [activePages] at h ⊢
            split_ifs at h ⊢ <;> omega
          split_ifs with hp
          · exact cursorActiveBound_of rfl rfl rfl hb
          · exact hb
        · rw [if_neg hc]; exact h
      rw [if_neg hk2]
      by_cases hk3 : k = "down" ∨ k = "j"
      · rw [if_pos hk3]
        by_cases hd : m.cursor < ((activePages m).length : Int) - 1
        · rw [if_pos hd]
          have hb : cursorActiveBound { m with cursor := m.cursor + 1 } := by
            rw [cursorActiveBound_iff] at h ⊢
            simp only [activePages] at h hd ⊢
            split_ifs at h hd ⊢ <;> omega
          split_ifs with hp
          · exact cursorActiveBound_of rfl rfl rfl hb
          · exact hb
        · rw [if_neg hd]; exact h
      rw [if_neg hk3]
      by_cases hk4 : k = "enter"
      · rw [if_pos hk4]
        split_ifs <;> exact h
      rw [if_neg hk4]
      by_cases hk5 : k = "/"
      · rw [if_pos hk5]; exact cursorActiveBound_of rfl rfl rfl h
      rw [if_neg hk5]
      by_cases hk6 : k = "r"
      · rw [if_pos hk6]; exact cursorActiveBound_of rfl rfl rfl h
      rw [if_neg hk6]
      by_cases hk7 : k = "1" ∨ k = "2" ∨ k = "3" ∨ k = "4" ∨ k = "5" ∨
          k = "6" ∨ k = "7" ∨ k = "8" ∨ k = "9"
      · rw [if_pos hk7]
        split_ifs <;>
          (rw [cursorActiveBound_iff]; simp only [activePages];
            split_ifs <;> first | omega | simp)
      · rw [if_neg hk7]; exact h
    | detailView =>
      simp only [updateKeyDetail]
      split_ifs <;> exact cursorActiveBound_of rfl rfl rfl h
    | searchView =>
      simp only [updateKeySearch]
      split_ifs <;> exact cursorActiveBound_of rfl rfl rfl h
    | detailSearchView =>
      simp only [updateKeyDetailSearch]
      split_ifs <;> exact cursorActiveBound_of rfl rfl rfl h

/-- Witness for C3 (amended): the bound is preserved when `down` is pressed
while the empty filtered view's fuzzy-suggestion list is navigated. -/
theorem C3_cursor_bound_witness :
    cursorActiveBound c3Mid
    ∧ cursorActiveBound ((c3Mid.Update (.key "down")).1) :=
  ⟨by decide, C3_cursor_bound c3Mid (.key "down") (by decide)⟩

/-- Counterexample for C3 as stated: starting from a reachable state whose
filtered view is empty while two fuzzy suggestions are shown (which
satisfies the claimed filtered-view bound), pressing `down` moves the
cursor to 1, violating `cursor ≤ max 0 (len(filtered view) − 1) = 0`. -/
theorem C3_filtered_bound_cex :
    cursorFilteredBound c3Mid
    ∧ ¬ cursorFilteredBound ((c3Mid.Update (.key "down")).1) := by decide

end Lazyman
